import Mathlib

/-!
Shallow embedding of the event-loop program in `src/main.go`
(repository Sahilb315/Event-Loop), together with proofs about its
scheduler core, its file-read helper and its key generator.

Modelling conventions:
* The Go map `Handlers map[string]func(string) string` is modelled as an
  association list in which `on` prepends a binding; `lookupHandler`
  returns the most recently inserted binding for a key, which is
  observationally the Go map's insert-overwrite / lookup behaviour.
* Every `fmt.Printf` of the scheduler is recorded as an `Output` action,
  with wall-clock durations abstracted away (`blockedReport` stands for
  the "Event loop was blocked for ... ms" line without its number).
* A goroutine spawned by `processAsynchronously` is modelled explicitly:
  the spawned-but-not-finished tasks live in the model-only field
  `pendingAsync`, and `finishAsync` runs the goroutine body (which, as in
  the source, looks the handler up again at completion time and appends
  the result to `ProcessedEvents`).
-/

namespace EventLoopModel

/-- An `Event` as in `src/main.go` lines 14-18. -/
structure Event where
  Key : String
  Data : String
  IsAsync : Bool
deriving DecidableEq

/-- An `EventResult` as in `src/main.go` lines 26-29. -/
structure EventResult where
  Key : String
  Result : String
deriving DecidableEq

/-- One printed line of the scheduler (each constructor is one of the
`fmt.Printf` calls of `run`, `processSynchronously` via
`produceOutputFor`, with durations abstracted). -/
inductive Output where
  | receivedEvent (key : String)
  | blockedReport
  | noHandlerFound (key : String)
  | outputFor (r : EventResult)
deriving DecidableEq

/-- The `EventLoop` struct (`src/main.go` lines 20-24); `pendingAsync` is
the model-only record of goroutines spawned by `processAsynchronously`
that have not finished yet. -/
structure EventLoop where
  Events : List Event
  Handlers : List (String × (String → String))
  ProcessedEvents : List EventResult
  pendingAsync : List Event

/-- Lookup in the association-list model of the Go handlers map: the most
recently inserted binding wins, `none` models the map's nil zero value for
a missing key. -/
def lookupHandler : List (String × (String → String)) → String → Option (String → String)
  | [], _ => none
  | (k, f) :: rest, key => if k = key then some f else lookupHandler rest key

/-- `NewEventLoop` (`src/main.go` lines 31-37); the empty task record is
the model's counterpart of "no goroutine is running yet". -/
def NewEventLoop : EventLoop :=
  { Events := [], Handlers := [], ProcessedEvents := [], pendingAsync := [] }

/-- The `on` method (Lean reserves the identifier `on`, so the model calls it `on'`) (`src/main.go` lines 41-44): stores the handler under
the key, overwriting (shadowing) any earlier binding. -/
def on' (e : EventLoop) (key : String) (fn : String → String) : EventLoop :=
  { e with Handlers := (key, fn) :: e.Handlers }

/-- The `dispatch` method (`src/main.go` lines 47-49): appends the event
to the pending queue. -/
def dispatch (e : EventLoop) (event : Event) : EventLoop :=
  { e with Events := e.Events ++ [event] }

/-- `produceOutputFor` (`src/main.go` lines 78-80): prints one result. -/
def produceOutputFor (processedEvent : EventResult) : List Output :=
  [Output.outputFor processedEvent]

/-- `processSynchronously` (`src/main.go` lines 82-91): runs the handler
inline and prints the result directly; the loop state is untouched. -/
def processSynchronously (e : EventLoop) (event : Event) : EventLoop × List Output :=
  match lookupHandler e.Handlers event.Key with
  | some handler => (e, produceOutputFor { Key := event.Key, Result := handler event.Data })
  | none => (e, [])

/-- `processAsynchronously` (`src/main.go` lines 93-104): spawns a
goroutine and returns immediately; in the model the spawned task is
recorded in `pendingAsync`. -/
def processAsynchronously (e : EventLoop) (event : Event) : EventLoop :=
  { e with pendingAsync := e.pendingAsync ++ [event] }

/-- Body of the goroutine spawned in `processAsynchronously`
(`src/main.go` lines 94-103), run at the moment the task finishes: it
looks the handler up again (at completion time, as the source does) and
appends the result to `ProcessedEvents`; it prints nothing. -/
def completeAsync (e : EventLoop) (event : Event) : EventLoop × List Output :=
  match lookupHandler e.Handlers event.Key with
  | some handler =>
      ({ e with ProcessedEvents :=
          e.ProcessedEvents ++ [{ Key := event.Key, Result := handler event.Data }] }, [])
  | none => (e, [])

/-- First block of `run` (`src/main.go` lines 52-70): if the pending
queue is non-empty, remove its head, print it, and execute it (sync
inline, async by spawning, or log "no handler found"). -/
def runDispatchPhase (e : EventLoop) : EventLoop × List Output :=
  match e.Events with
  | [] => (e, [])
  | event :: rest =>
    let e' := { e with Events := rest }
    match lookupHandler e'.Handlers event.Key with
    | some _ =>
      if event.IsAsync then
        (processAsynchronously e' event, [Output.receivedEvent event.Key, Output.blockedReport])
      else
        let p := processSynchronously e' event
        (p.1, Output.receivedEvent event.Key :: (p.2 ++ [Output.blockedReport]))
    | none => (e', [Output.receivedEvent event.Key, Output.noHandlerFound event.Key])

/-- Second block of `run` (`src/main.go` lines 71-75): if the completed
queue is non-empty, remove its head and print it. -/
def runDrainPhase (e : EventLoop) : EventLoop × List Output :=
  match e.ProcessedEvents with
  | [] => (e, [])
  | processedEvent :: rest =>
    ({ e with ProcessedEvents := rest }, produceOutputFor processedEvent)

/-- The `run` method (`src/main.go` lines 51-76): one dispatch phase then
one drain phase. -/
def run (e : EventLoop) : EventLoop × List Output :=
  let d := runDispatchPhase e
  let r := runDrainPhase d.1
  (r.1, d.2 ++ r.2)

/-- A finished goroutine leaves the spawned-task record and its body
runs: `finishAsync e i` finishes the `i`-th outstanding task (tasks may
finish in any order). A bad index is a no-op. -/
def finishAsync (e : EventLoop) (i : Nat) : EventLoop × List Output :=
  match e.pendingAsync.get? i with
  | some ev => completeAsync { e with pendingAsync := e.pendingAsync.eraseIdx i } ev
  | none => (e, [])

/-! Equation lemmas for the four branches of the dispatch phase and the
two branches of the drain phase. -/

theorem runDispatchPhase_nil (e : EventLoop) (hE : e.Events = []) :
    runDispatchPhase e = (e, []) := by
  unfold runDispatchPhase
  rw [hE]

theorem runDispatchPhase_noHandler (e : EventLoop) (ev : Event) (rest : List Event)
    (hE : e.Events = ev :: rest)
    (hl : lookupHandler e.Handlers ev.Key = none) :
    runDispatchPhase e =
      ({ e with Events := rest },
        [Output.receivedEvent ev.Key, Output.noHandlerFound ev.Key]) := by
  unfold runDispatchPhase
  rw [hE]
  dsimp only
  rw [hl]

theorem runDispatchPhase_sync (e : EventLoop) (ev : Event) (rest : List Event)
    (f : String → String) (hE : e.Events = ev :: rest)
    (hl : lookupHandler e.Handlers ev.Key = some f)
    (hS : ev.IsAsync = false) :
    runDispatchPhase e =
      ({ e with Events := rest },
        [Output.receivedEvent ev.Key,
         Output.outputFor { Key := ev.Key, Result := f ev.Data },
         Output.blockedReport]) := by
  unfold runDispatchPhase
  rw [hE]
  dsimp only
  rw [hl, hS]
  dsimp only
  unfold processSynchronously
  dsimp only
  rw [hl]
  rfl

theorem runDispatchPhase_async (e : EventLoop) (ev : Event) (rest : List Event)
    (f : String → String) (hE : e.Events = ev :: rest)
    (hl : lookupHandler e.Handlers ev.Key = some f)
    (hS : ev.IsAsync = true) :
    runDispatchPhase e =
      ({ e with Events := rest, pendingAsync := e.pendingAsync ++ [ev] },
        [Output.receivedEvent ev.Key, Output.blockedReport]) := by
  unfold runDispatchPhase
  rw [hE]
  dsimp only
  rw [hl, hS]
  rfl

theorem runDrainPhase_nil (e : EventLoop) (hP : e.ProcessedEvents = []) :
    runDrainPhase e = (e, []) := by
  unfold runDrainPhase
  rw [hP]

theorem runDrainPhase_cons (e : EventLoop) (r : EventResult) (rest : List EventResult)
    (hP : e.ProcessedEvents = r :: rest) :
    runDrainPhase e = ({ e with ProcessedEvents := rest }, [Output.outputFor r]) := by
  unfold runDrainPhase
  rw [hP]
  rfl

/-! Frame facts: what each phase leaves untouched and how the two queues
shrink. -/

theorem runDispatchPhase_Events (e : EventLoop) :
    (runDispatchPhase e).1.Events = e.Events.tail := by
  cases hE : e.Events with
  | nil => rw [runDispatchPhase_nil e hE]; exact hE
  | cons ev rest =>
    cases hl : lookupHandler e.Handlers ev.Key with
    | none => rw [runDispatchPhase_noHandler e ev rest hE hl]; rfl
    | some f =>
      cases hS : ev.IsAsync with
      | false => rw [runDispatchPhase_sync e ev rest f hE hl hS]; rfl
      | true => rw [runDispatchPhase_async e ev rest f hE hl hS]; rfl

theorem runDispatchPhase_ProcessedEvents (e : EventLoop) :
    (runDispatchPhase e).1.ProcessedEvents = e.ProcessedEvents := by
  cases hE : e.Events with
  | nil => rw [runDispatchPhase_nil e hE]
  | cons ev rest =>
    cases hl : lookupHandler e.Handlers ev.Key with
    | none => rw [runDispatchPhase_noHandler e ev rest hE hl]
    | some f =>
      cases hS : ev.IsAsync with
      | false => rw [runDispatchPhase_sync e ev rest f hE hl hS]
      | true => rw [runDispatchPhase_async e ev rest f hE hl hS]

theorem runDispatchPhase_Handlers (e : EventLoop) :
    (runDispatchPhase e).1.Handlers = e.Handlers := by
  cases hE : e.Events with
  | nil => rw [runDispatchPhase_nil e hE]
  | cons ev rest =>
    cases hl : lookupHandler e.Handlers ev.Key with
    | none => rw [runDispatchPhase_noHandler e ev rest hE hl]
    | some f =>
      cases hS : ev.IsAsync with
      | false => rw [runDispatchPhase_sync e ev rest f hE hl hS]
      | true => rw [runDispatchPhase_async e ev rest f hE hl hS]

theorem runDrainPhase_ProcessedEvents (e : EventLoop) :
    (runDrainPhase e).1.ProcessedEvents = e.ProcessedEvents.tail := by
  cases hP : e.ProcessedEvents with
  | nil => rw [runDrainPhase_nil e hP]; exact hP
  | cons r rest => rw [runDrainPhase_cons e r rest hP]; rfl

theorem runDrainPhase_frame (e : EventLoop) :
    (runDrainPhase e).1.Events = e.Events ∧
    (runDrainPhase e).1.Handlers = e.Handlers ∧
    (runDrainPhase e).1.pendingAsync = e.pendingAsync := by
  cases hP : e.ProcessedEvents with
  | nil => rw [runDrainPhase_nil e hP]; exact ⟨rfl, rfl, rfl⟩
  | cons r rest => rw [runDrainPhase_cons e r rest hP]; exact ⟨rfl, rfl, rfl⟩

theorem run_Events (e : EventLoop) : (run e).1.Events = e.Events.tail := by
  unfold run
  dsimp only
  rw [(runDrainPhase_frame (runDispatchPhase e).1).1, runDispatchPhase_Events]

theorem run_ProcessedEvents (e : EventLoop) :
    (run e).1.ProcessedEvents = e.ProcessedEvents.tail := by
  unfold run
  dsimp only
  rw [runDrainPhase_ProcessedEvents, runDispatchPhase_ProcessedEvents]

theorem run_Handlers (e : EventLoop) : (run e).1.Handlers = e.Handlers := by
  unfold run
  dsimp only
  rw [(runDrainPhase_frame (runDispatchPhase e).1).2.1, runDispatchPhase_Handlers]

/-! Iterated ticking and bulk submission, for the FIFO-dispatch claim. -/

/-- Submit a whole list of events with successive `dispatch` calls. -/
def submitAll (e : EventLoop) (l : List Event) : EventLoop :=
  l.foldl dispatch e

/-- Iterate the state part of `run`. -/
def ticks (e : EventLoop) : Nat → EventLoop
  | 0 => e
  | n + 1 => ticks (run e).1 n

theorem submitAll_Events (l : List Event) (e : EventLoop) :
    (submitAll e l).Events = e.Events ++ l := by
  induction l generalizing e with
  | nil => simp [submitAll]
  | cons ev rest ih =>
    show (submitAll (dispatch e ev) rest).Events = _
    rw [ih]
    simp [dispatch]

theorem ticks_Events (k : Nat) (e : EventLoop) :
    (ticks e k).Events = e.Events.drop k := by
  induction k generalizing e with
  | zero => rfl
  | succ n ih =>
    show (ticks (run e).1 n).Events = _
    rw [ih, run_Events, ← List.drop_one, List.drop_drop]
    rw [Nat.add_comm]

theorem run_receives (e : EventLoop) (ev : Event) (rest : List Event)
    (hE : e.Events = ev :: rest) :
    ∃ outs, (run e).2 = Output.receivedEvent ev.Key :: outs := by
  unfold run
  dsimp only
  cases hl : lookupHandler e.Handlers ev.Key with
  | none => rw [runDispatchPhase_noHandler e ev rest hE hl]; exact ⟨_, rfl⟩
  | some f =>
    cases hS : ev.IsAsync with
    | false => rw [runDispatchPhase_sync e ev rest f hE hl hS]; exact ⟨_, rfl⟩
    | true => rw [runDispatchPhase_async e ev rest f hE hl hS]; exact ⟨_, rfl⟩

/-- C1: for every sequence of `dispatch` calls with events E1..En on an
event loop whose pending queue starts empty, the k-th subsequent `run`
call finds Ek+1 at the head of the pending queue and dispatches exactly
it — its printed output starts with the received-event line for Ek+1 —
one event per call, whatever each event's sync/async mode. -/
theorem fifo_dispatch (s0 : EventLoop) (l : List Event) (k : Nat)
    (h0 : s0.Events = []) (hk : k < l.length) :
    (ticks (submitAll s0 l) k).Events.head? = some (l.get ⟨k, hk⟩) ∧
    ∃ outs, (run (ticks (submitAll s0 l) k)).2
        = Output.receivedEvent (l.get ⟨k, hk⟩).Key :: outs := by
  have hhead : (ticks (submitAll s0 l) k).Events.head? = some (l.get ⟨k, hk⟩) := by
    rw [ticks_Events, submitAll_Events, h0, List.nil_append]
    rw [List.head?_drop]
    simp [List.getElem?_eq_getElem hk]
  refine ⟨hhead, ?_⟩
  cases hC : (ticks (submitAll s0 l) k).Events with
  | nil => rw [hC] at hhead; cases hhead
  | cons ev rest =>
    rw [hC] at hhead
    have hev : ev = l.get ⟨k, hk⟩ := by
      simpa using hhead
    subst hev
    exact run_receives _ _ rest hC

/-- Concrete instance of `fifo_dispatch` on three events of mixed modes:
the second `run` call dispatches the second submitted event. -/
theorem fifo_dispatch_witness :
    NewEventLoop.Events = [] ∧ (1 : Nat) < 3 ∧
    ((ticks (submitAll NewEventLoop
        [{ Key := "a", Data := "1", IsAsync := false },
         { Key := "b", Data := "2", IsAsync := true },
         { Key := "c", Data := "3", IsAsync := false }]) 1).Events.head? =
      some { Key := "b", Data := "2", IsAsync := true } ∧
     ∃ outs, (run (ticks (submitAll NewEventLoop
        [{ Key := "a", Data := "1", IsAsync := false },
         { Key := "b", Data := "2", IsAsync := true },
         { Key := "c", Data := "3", IsAsync := false }]) 1)).2
        = Output.receivedEvent "b" :: outs) :=
  ⟨rfl, by decide,
    fifo_dispatch NewEventLoop
      [{ Key := "a", Data := "1", IsAsync := false },
       { Key := "b", Data := "2", IsAsync := true },
       { Key := "c", Data := "3", IsAsync := false }] 1 rfl (by decide)⟩

/-- C2: a single `run` call removes exactly the head (so at most one
element) from each of the pending and completed queues; with 3 pending
events and 3 completed results it leaves exactly 2 and 2. -/
theorem tick_at_most_one (s : EventLoop) :
    ((run s).1.Events = s.Events.tail ∧
     (run s).1.ProcessedEvents = s.ProcessedEvents.tail) ∧
    (s.Events.length = 3 → s.ProcessedEvents.length = 3 →
      (run s).1.Events.length = 2 ∧ (run s).1.ProcessedEvents.length = 2) := by
  refine ⟨⟨run_Events s, run_ProcessedEvents s⟩, ?_⟩
  intro h3 h3'
  rw [run_Events, run_ProcessedEvents, List.length_tail, List.length_tail, h3, h3']
  exact ⟨rfl, rfl⟩

/-- Concrete loop state with 3 pending events and 3 completed results. -/
def threeThreeState : EventLoop :=
  { Events := [{ Key := "a", Data := "", IsAsync := false },
               { Key := "b", Data := "", IsAsync := true },
               { Key := "c", Data := "", IsAsync := false }]
    Handlers := []
    ProcessedEvents := [{ Key := "x", Result := "1" },
                        { Key := "y", Result := "2" },
                        { Key := "z", Result := "3" }]
    pendingAsync := [] }

/-- Concrete instance of `tick_at_most_one` at `threeThreeState`. -/
theorem tick_at_most_one_witness :
    threeThreeState.Events.length = 3 ∧ threeThreeState.ProcessedEvents.length = 3 ∧
    (run threeThreeState).1.Events.length = 2 ∧
    (run threeThreeState).1.ProcessedEvents.length = 2 :=
  ⟨rfl, rfl, ((tick_at_most_one threeThreeState).2 rfl rfl).1,
    ((tick_at_most_one threeThreeState).2 rfl rfl).2⟩

/-- C3: with a handler registered for the event's key, synchronous
processing hands the result straight to the output sink and leaves the
whole loop state (in particular the completed queue) unchanged, while the
asynchronous task body appends the result to the completed queue and
prints nothing; the two paths are exclusive. -/
theorem sync_direct_async_queued (e : EventLoop) (ev : Event) (f : String → String)
    (hl : lookupHandler e.Handlers ev.Key = some f) :
    processSynchronously e ev =
      (e, [Output.outputFor { Key := ev.Key, Result := f ev.Data }]) ∧
    completeAsync e ev =
      ({ e with ProcessedEvents :=
          e.ProcessedEvents ++ [{ Key := ev.Key, Result := f ev.Data }] }, []) := by
  constructor
  · unfold processSynchronously
    rw [hl]
    rfl
  · unfold completeAsync
    rw [hl]

/-- Concrete instance of `sync_direct_async_queued`. -/
theorem sync_direct_async_queued_witness :
    processSynchronously (on' NewEventLoop "greet" (fun d => "Hello! " ++ d))
        { Key := "greet", Data := "you", IsAsync := true } =
      (on' NewEventLoop "greet" (fun d => "Hello! " ++ d),
        [Output.outputFor { Key := "greet", Result := "Hello! you" }]) ∧
    completeAsync (on' NewEventLoop "greet" (fun d => "Hello! " ++ d))
        { Key := "greet", Data := "you", IsAsync := true } =
      ({ on' NewEventLoop "greet" (fun d => "Hello! " ++ d) with
          ProcessedEvents := [{ Key := "greet", Result := "Hello! you" }] }, []) :=
  sync_direct_async_queued (on' NewEventLoop "greet" (fun d => "Hello! " ++ d))
    { Key := "greet", Data := "you", IsAsync := true } (fun d => "Hello! " ++ d) rfl

/-- C4: submitting an event under a key with no registered handler and
then calling `run` terminates normally (the model is a total function),
removes that event from the pending queue (the state returns to what it
was), prints the received-event line and the "no handler found"
diagnostic, and produces no `EventResult`: no `outputFor` line is
emitted and the completed queue and spawned-task record are untouched. -/
theorem unregistered_key_noop (s : EventLoop) (ev : Event)
    (hl : lookupHandler s.Handlers ev.Key = none)
    (hE : s.Events = []) (hP : s.ProcessedEvents = []) :
    run (dispatch s ev) =
      (s, [Output.receivedEvent ev.Key, Output.noHandlerFound ev.Key]) := by
  obtain ⟨sE, sH, sP, sA⟩ := s
  simp only at hE hP hl
  subst hE hP
  have h1 := runDispatchPhase_noHandler (dispatch ⟨[], sH, [], sA⟩ ev) ev [] rfl hl
  unfold run
  rw [h1]
  dsimp only
  rw [runDrainPhase_nil _ rfl]
  rfl

/-- Concrete instance of `unregistered_key_noop`: nothing is registered
in a fresh loop, so the key "missing" has no handler. -/
theorem unregistered_key_noop_witness :
    run (dispatch NewEventLoop { Key := "missing", Data := "d", IsAsync := false }) =
      (NewEventLoop, [Output.receivedEvent "missing", Output.noHandlerFound "missing"]) :=
  unregistered_key_noop NewEventLoop { Key := "missing", Data := "d", IsAsync := false }
    rfl rfl rfl

/-- C6: registering `h2` under a key after `h1` succeeds unconditionally
(`on'` is total and returns the updated loop), makes lookup yield `h2`,
and every subsequent execution of an event with that key — synchronous
inline processing as well as the asynchronous task body — invokes `h2`,
computing `h2 d` and not `h1 d`, whatever `h1` was. -/
theorem registry_overwrite (s : EventLoop) (k : String) (h1 h2 : String → String)
    (d : String) :
    lookupHandler (on' (on' s k h1) k h2).Handlers k = some h2 ∧
    processSynchronously (on' (on' s k h1) k h2) { Key := k, Data := d, IsAsync := false } =
      (on' (on' s k h1) k h2,
        [Output.outputFor { Key := k, Result := h2 d }]) ∧
    completeAsync (on' (on' s k h1) k h2) { Key := k, Data := d, IsAsync := true } =
      ({ on' (on' s k h1) k h2 with ProcessedEvents :=
          (on' (on' s k h1) k h2).ProcessedEvents ++ [{ Key := k, Result := h2 d }] }, []) := by
  have hl : lookupHandler (on' (on' s k h1) k h2).Handlers k = some h2 := by
    show (if k = k then some h2 else _) = some h2
    rw [if_pos rfl]
  refine ⟨hl, ?_, ?_⟩
  · unfold processSynchronously
    dsimp only
    rw [hl]
    rfl
  · unfold completeAsync
    dsimp only
    rw [hl]

/-- C10: when both the pending queue and the completed queue are empty,
`run` returns normally, prints nothing, and leaves the state — registry,
queues and spawned-task record — exactly as it was. -/
theorem tick_noop_on_empty (s : EventLoop)
    (hE : s.Events = []) (hP : s.ProcessedEvents = []) :
    run s = (s, []) := by
  unfold run
  rw [runDispatchPhase_nil s hE]
  dsimp only
  rw [runDrainPhase_nil s hP]
  rfl

/-- Concrete instance of `tick_noop_on_empty` on a loop with a registered
handler but empty queues. -/
theorem tick_noop_on_empty_witness :
    run (on' NewEventLoop "k" (fun d => d)) = (on' NewEventLoop "k" (fun d => d), []) :=
  tick_noop_on_empty (on' NewEventLoop "k" (fun d => d)) rfl rfl

/-! Trace semantics: every way the program drives the loop — the `main`
menu registering and dispatching, `run` calls, and goroutines finishing
— as a sequence of operations, with a ledger of removals and appends. -/

/-- One externally triggered step of the scheduler: a registration, a
submission, a `run` call, or the completion of the `i`-th outstanding
asynchronous task. -/
inductive Op where
  | reg (key : String) (fn : String → String)
  | submit (ev : Event)
  | tick
  | finish (i : Nat)

/-- Events submitted by a sequence of operations, in order. -/
def submittedIn : List Op → List Event
  | [] => []
  | Op.submit ev :: rest => ev :: submittedIn rest
  | _ :: rest => submittedIn rest

/-- The result (if any) that finishing the `i`-th outstanding task
appends to the completed queue: none for a bad index, none when the
handler is no longer registered, else the handler's result. -/
def appendedBy (e : EventLoop) (i : Nat) : List EventResult :=
  match e.pendingAsync.get? i with
  | some ev =>
    match lookupHandler e.Handlers ev.Key with
    | some f => [{ Key := ev.Key, Result := f ev.Data }]
    | none => []
  | none => []

/-- A trace: the current state plus the ledger of what happened so far —
the events `run` removed from the pending queue, the results `run`
removed from the completed queue, the results finished tasks appended to
the completed queue, and everything printed. -/
structure Trace where
  state : EventLoop
  dispatched : List Event
  drained : List EventResult
  appended : List EventResult
  outputs : List Output

/-- Execute one operation and extend the ledger. The ledger entries are
read off the state: a `tick` removes (at most) the pending head and the
completed head, a `finish` appends `appendedBy`. -/
def record (t : Trace) : Op → Trace
  | Op.reg key fn => { t with state := on' t.state key fn }
  | Op.submit ev => { t with state := dispatch t.state ev }
  | Op.tick =>
    { state := (run t.state).1
      dispatched := t.dispatched ++ t.state.Events.take 1
      drained := t.drained ++ t.state.ProcessedEvents.take 1
      appended := t.appended
      outputs := t.outputs ++ (run t.state).2 }
  | Op.finish i =>
    { state := (finishAsync t.state i).1
      dispatched := t.dispatched
      drained := t.drained
      appended := t.appended ++ appendedBy t.state i
      outputs := t.outputs ++ (finishAsync t.state i).2 }

/-- Run a whole operation sequence from a fresh loop with an empty
ledger. -/
def traceOf (ops : List Op) : Trace :=
  ops.foldl record
    { state := NewEventLoop, dispatched := [], drained := [], appended := [], outputs := [] }

theorem finishAsync_state (e : EventLoop) (i : Nat) :
    (finishAsync e i).1.Events = e.Events ∧
    (finishAsync e i).1.ProcessedEvents = e.ProcessedEvents ++ appendedBy e i := by
  obtain ⟨sE, sH, sP, sA⟩ := e
  unfold finishAsync appendedBy
  dsimp only
  cases hg : sA.get? i with
  | none => exact ⟨rfl, (List.append_nil _).symm⟩
  | some ev =>
    unfold completeAsync
    dsimp only
    cases hl : lookupHandler sH ev.Key with
    | none => exact ⟨rfl, (List.append_nil _).symm⟩
    | some f => exact ⟨rfl, rfl⟩

/-- Core accounting induction: starting from any ledger whose
completed-queue books balance, after any operation sequence the events
removed by ticks followed by the still-pending events are exactly the
previously pending plus the submitted ones, in order, and the drained
results followed by the still-queued results are exactly the appended
ones. -/
theorem traceInv_aux (ops : List Op) (t : Trace)
    (h2 : t.drained ++ t.state.ProcessedEvents = t.appended) :
    (List.foldl record t ops).dispatched ++ (List.foldl record t ops).state.Events
        = (t.dispatched ++ t.state.Events) ++ submittedIn ops ∧
    (List.foldl record t ops).drained ++ (List.foldl record t ops).state.ProcessedEvents
        = (List.foldl record t ops).appended := by
  induction ops generalizing t with
  | nil =>
    exact ⟨(List.append_nil _).symm, h2⟩
  | cons op rest ih =>
    simp only [List.foldl_cons]
    cases op with
    | reg key fn =>
      exact ih (record t (Op.reg key fn)) h2
    | submit ev =>
      have h := ih (record t (Op.submit ev)) h2
      refine ⟨?_, h.2⟩
      rw [h.1]
      show (t.dispatched ++ (t.state.Events ++ [ev])) ++ submittedIn rest
          = (t.dispatched ++ t.state.Events) ++ (ev :: submittedIn rest)
      simp
    | tick =>
      have hbal : (record t Op.tick).drained ++ (record t Op.tick).state.ProcessedEvents
          = (record t Op.tick).appended := by
        show (t.drained ++ t.state.ProcessedEvents.take 1) ++ (run t.state).1.ProcessedEvents
            = t.appended
        rw [run_ProcessedEvents, ← h2, ← List.drop_one, List.append_assoc,
          List.take_append_drop]
      have h := ih (record t Op.tick) hbal
      refine ⟨?_, h.2⟩
      rw [h.1]
      show ((t.dispatched ++ t.state.Events.take 1) ++ (run t.state).1.Events)
          ++ submittedIn rest = _
      rw [run_Events, ← List.drop_one, List.append_assoc t.dispatched,
        List.take_append_drop]
      rfl
    | finish i =>
      have hbal : (record t (Op.finish i)).drained
            ++ (record t (Op.finish i)).state.ProcessedEvents
          = (record t (Op.finish i)).appended := by
        show t.drained ++ (finishAsync t.state i).1.ProcessedEvents
            = t.appended ++ appendedBy t.state i
        rw [(finishAsync_state t.state i).2, ← List.append_assoc, h2]
      have h := ih (record t (Op.finish i)) hbal
      refine ⟨?_, h.2⟩
      rw [h.1]
      show (t.dispatched ++ (finishAsync t.state i).1.Events) ++ submittedIn rest = _
      rw [(finishAsync_state t.state i).1]
      rfl

/-- C5: over every operation sequence, (i) the events the ticks removed
from the pending queue, followed by the events still pending, are
exactly the submitted events in order — so each submitted event is
removed at most once and nothing is ever re-enqueued; (ii) the results
the ticks drained from the completed queue, followed by the results
still queued, are exactly the results the finished tasks appended — so
each appended result is drained at most once and each drained result was
appended; (iii) each removal executes the event exactly once: either no
handler is registered and the tick only logs the diagnostic, or the
handler runs inline producing exactly one direct output, or exactly one
task is spawned; and (iv) each drain emits the drained result. -/
theorem exactly_once_accounting (ops : List Op) :
    ((traceOf ops).dispatched ++ (traceOf ops).state.Events = submittedIn ops) ∧
    ((traceOf ops).drained ++ (traceOf ops).state.ProcessedEvents = (traceOf ops).appended) ∧
    (∀ (s : EventLoop) (ev : Event) (rest : List Event), s.Events = ev :: rest →
      (lookupHandler s.Handlers ev.Key = none ∧
        runDispatchPhase s = ({ s with Events := rest },
          [Output.receivedEvent ev.Key, Output.noHandlerFound ev.Key])) ∨
      (∃ f, lookupHandler s.Handlers ev.Key = some f ∧ ev.IsAsync = false ∧
        runDispatchPhase s = ({ s with Events := rest },
          [Output.receivedEvent ev.Key,
           Output.outputFor { Key := ev.Key, Result := f ev.Data },
           Output.blockedReport])) ∨
      (∃ f, lookupHandler s.Handlers ev.Key = some f ∧ ev.IsAsync = true ∧
        runDispatchPhase s =
          ({ s with Events := rest, pendingAsync := s.pendingAsync ++ [ev] },
            [Output.receivedEvent ev.Key, Output.blockedReport]))) ∧
    (∀ (s : EventLoop) (r : EventResult) (rest : List EventResult),
      s.ProcessedEvents = r :: rest →
      runDrainPhase s = ({ s with ProcessedEvents := rest }, [Output.outputFor r])) := by
  have hmain := traceInv_aux ops
    { state := NewEventLoop, dispatched := [], drained := [], appended := [], outputs := [] }
    rfl
  refine ⟨by simpa [traceOf] using hmain.1, by simpa [traceOf] using hmain.2, ?_, ?_⟩
  · intro s ev rest hE
    cases hl : lookupHandler s.Handlers ev.Key with
    | none => exact Or.inl ⟨rfl, runDispatchPhase_noHandler s ev rest hE hl⟩
    | some f =>
      cases hS : ev.IsAsync with
      | false => exact Or.inr (Or.inl ⟨f, rfl, rfl, runDispatchPhase_sync s ev rest f hE hl hS⟩)
      | true => exact Or.inr (Or.inr ⟨f, rfl, rfl, runDispatchPhase_async s ev rest f hE hl hS⟩)
  · intro s r rest hP
    exact runDrainPhase_cons s r rest hP

/-- Concrete operation sequence exercising registration, submission of a
sync and an async event, ticks and an async completion. -/
def demoOps : List Op :=
  [Op.reg "s" (fun d => d ++ "!"),
   Op.reg "a" (fun d => d ++ "?"),
   Op.submit { Key := "s", Data := "x", IsAsync := false },
   Op.submit { Key := "a", Data := "y", IsAsync := true },
   Op.tick, Op.tick, Op.finish 0, Op.tick]

/-- Loop state with an unregistered pending event and a queued result,
used to instantiate the per-step parts of `exactly_once_accounting`. -/
def demoState : EventLoop :=
  { Events := [{ Key := "ghost", Data := "g", IsAsync := false }]
    Handlers := []
    ProcessedEvents := [{ Key := "old", Result := "r" }]
    pendingAsync := [] }

/-- Concrete instance of `exactly_once_accounting`: the ledger equations
hold for `demoOps`, and its per-step cases hold at `demoState`. -/
theorem exactly_once_accounting_witness :
    ((traceOf demoOps).dispatched ++ (traceOf demoOps).state.Events = submittedIn demoOps) ∧
    ((traceOf demoOps).drained ++ (traceOf demoOps).state.ProcessedEvents
        = (traceOf demoOps).appended) ∧
    ((lookupHandler demoState.Handlers "ghost" = none ∧
        runDispatchPhase demoState = ({ demoState with Events := [] },
          [Output.receivedEvent "ghost", Output.noHandlerFound "ghost"])) ∨
      (∃ f, lookupHandler demoState.Handlers "ghost" = some f ∧ false = false ∧
        runDispatchPhase demoState = ({ demoState with Events := [] },
          [Output.receivedEvent "ghost",
           Output.outputFor { Key := "ghost", Result := f "g" },
           Output.blockedReport])) ∨
      (∃ f, lookupHandler demoState.Handlers "ghost" = some f ∧ false = true ∧
        runDispatchPhase demoState =
          ({ demoState with Events := [], pendingAsync := demoState.pendingAsync ++ [{ Key := "ghost", Data := "g", IsAsync := false }] },
            [Output.receivedEvent "ghost", Output.blockedReport]))) ∧
    (runDrainPhase demoState = ({ demoState with ProcessedEvents := [] },
      [Output.outputFor { Key := "old", Result := "r" }])) := by
  have h := exactly_once_accounting demoOps
  exact ⟨h.1, h.2.1,
    h.2.2.1 demoState { Key := "ghost", Data := "g", IsAsync := false } [] rfl,
    h.2.2.2 demoState { Key := "old", Result := "r" } [] rfl⟩

end EventLoopModel

namespace FileModel

/-- Outcome of the `os.ReadFile` call in `readFile` (`src/main.go` line
107): the contents on success, or a failure that either reports that the
file does not exist or fails for another reason (permission denied,
path is a directory, ...), carrying its message. -/
inductive ReadFileResult where
  | ok (content : String)
  | errNotExist (msg : String)
  | errOther (msg : String)
deriving DecidableEq

/-- `os.IsExist err` (`src/main.go` line 109): true only for errors
reporting that a file *already exists* — which a failing `os.ReadFile`
never produces, so it is false on both failure outcomes. (The source
uses this where `os.IsNotExist` would distinguish the two failures.) -/
def osIsExist : ReadFileResult → Bool
  | ReadFileResult.ok _ => false
  | ReadFileResult.errNotExist _ => false
  | ReadFileResult.errOther _ => false

/-- Message of a failed read, as `fmt.Sprintf` would render `err`. -/
def errMsg : ReadFileResult → String
  | ReadFileResult.ok _ => ""
  | ReadFileResult.errNotExist msg => msg
  | ReadFileResult.errOther msg => msg

/-- I/O oracle for one `readFile` call: what each file-system call it
can make would return. `createErr` is the error of `os.Create` (`none`
on success); `readBackResult` is what `io.ReadAll` returns after the
`WriteString "New file created"` and `Seek 0` on the created file (on
the normal path `Except.ok "New file created"`). -/
structure FSOutcome where
  readResult : ReadFileResult
  createErr : Option String
  readBackResult : Except String String

/-- `readFile` (`src/main.go` lines 106-127) over the oracle. The
control flow mirrors the source: on a read error it computes
`exists := os.IsExist(err)`; if `!exists` it creates the file, writes
the placeholder, returns the create error if any, else re-reads and
returns that content (or the re-read error); only when `os.IsExist(err)`
holds would it report the original read error. -/
def readFile (fs : FSOutcome) (_filename : String) : String :=
  match fs.readResult with
  | ReadFileResult.ok data => data
  | e =>
    if !(osIsExist e) then
      match fs.createErr with
      | some msg => "Error creating file: " ++ msg
      | none =>
        match fs.readBackResult with
        | Except.error msg => "Error reading file: " ++ msg
        | Except.ok data => data
    else
      "Error reading file: " ++ errMsg e

/-- C8, code-level behaviour at the divergence point: when the read
fails for a reason *other* than nonexistence (here: permission denied)
and the `os.Create` path succeeds, `readFile` returns the placeholder
text "New file created" — not an error-description string — because the
source tests `os.IsExist(err)` (always false for read failures) where
`os.IsNotExist(err)` was intended; the existing file is truncated and
the I/O failure is silently swallowed. -/
theorem readFile_other_error_returns_placeholder :
    readFile
      { readResult := ReadFileResult.errOther "open hello.txt: permission denied",
        createErr := none,
        readBackResult := Except.ok "New file created" } "hello.txt"
      = "New file created" ∧
    readFile
      { readResult := ReadFileResult.ok "contents",
        createErr := none,
        readBackResult := Except.ok "New file created" } "hello.txt" = "contents" ∧
    readFile
      { readResult := ReadFileResult.errNotExist "open hello.txt: no such file or directory",
        createErr := none,
        readBackResult := Except.ok "New file created" } "hello.txt"
      = "New file created" :=
  ⟨rfl, rfl, rfl⟩

end FileModel

namespace KeyModel

/-- Decimal digit string of a natural number, most significant digit
first ("0" for zero), as Go's `fmt` verb `%d` renders it. -/
def natDecimal (n : Nat) : String :=
  if n = 0 then "0" else String.mk (((Nat.digits 10 n).map Nat.digitChar).reverse)

/-- Decimal rendering of a Go `int`: a minus sign before the digits of
the magnitude for negatives, as `%d` renders it. -/
def intDecimal : Int → String
  | Int.ofNat n => natDecimal n
  | Int.negSucc n => "-" ++ natDecimal (n + 1)

/-- `generateUniqueEventKey` (`src/main.go` lines 151-153):
`fmt.Sprintf("%s-%d", base, id)` — the base, a hyphen, the decimal
counter. -/
def generateUniqueEventKey (base : String) (id : Int) : String :=
  base ++ "-" ++ intDecimal id

/-- Numeric value of a decimal digit character (left inverse of
`Nat.digitChar` below 10, used to invert the rendering). -/
def charVal (c : Char) : Nat := c.toNat - 48

theorem string_data_append (s t : String) : (s ++ t).data = s.data ++ t.data := by
  cases s
  cases t
  rfl

theorem string_data_inj (s t : String) (h : s.data = t.data) : s = t := by
  cases s
  cases t
  exact congrArg String.mk h

theorem charVal_digitChar : ∀ d < 10, charVal (Nat.digitChar d) = d := by decide

theorem digitChar_ne_dash : ∀ d < 10, Nat.digitChar d ≠ '-' := by decide

theorem decode_natDecimal (n : Nat) :
    Nat.ofDigits 10 ((natDecimal n).data.reverse.map charVal) = n := by
  unfold natDecimal
  by_cases h : n = 0
  · subst h
    decide
  · rw [if_neg h]
    show Nat.ofDigits 10
        ((((Nat.digits 10 n).map Nat.digitChar).reverse).reverse.map charVal) = n
    rw [List.reverse_reverse, List.map_map]
    have hid : (Nat.digits 10 n).map (charVal ∘ Nat.digitChar) = Nat.digits 10 n := by
      have : ∀ d ∈ Nat.digits 10 n, (charVal ∘ Nat.digitChar) d = id d := by
        intro d hd
        exact charVal_digitChar d (Nat.digits_lt_base (by norm_num) hd)
      rw [List.map_congr_left this, List.map_id]
    rw [hid, Nat.ofDigits_digits]

theorem natDecimal_injective : Function.Injective natDecimal := by
  intro a b h
  have ha := decode_natDecimal a
  rw [h, decode_natDecimal b] at ha
  exact ha.symm

theorem natDecimal_no_dash (n : Nat) : ∀ c ∈ (natDecimal n).data, c ≠ '-' := by
  intro c hc
  unfold natDecimal at hc
  by_cases h : n = 0
  · rw [if_pos h] at hc
    have : c = '0' := by
      simpa using hc
    subst this
    decide
  · rw [if_neg h] at hc
    rw [show (String.mk (((Nat.digits 10 n).map Nat.digitChar).reverse)).data
        = ((Nat.digits 10 n).map Nat.digitChar).reverse from rfl,
      List.mem_reverse] at hc
    obtain ⟨d, hd, rfl⟩ := List.mem_map.mp hc
    have hlt : d < 10 := Nat.digits_lt_base (by norm_num) hd
    exact digitChar_ne_dash d hlt

theorem intDecimal_injective : Function.Injective intDecimal := by
  have key : ∀ (a b : Nat), natDecimal a = "-" ++ natDecimal (b + 1) → False := by
    intro a b h
    have hd := congrArg String.data h
    rw [string_data_append] at hd
    have hm : '-' ∈ (natDecimal a).data := by
      rw [hd]
      exact List.mem_append_left _ (by decide)
    exact natDecimal_no_dash a '-' hm rfl
  intro i j h
  match i, j with
  | Int.ofNat a, Int.ofNat b =>
    exact congrArg Int.ofNat (natDecimal_injective h)
  | Int.ofNat a, Int.negSucc b =>
    exact absurd h (fun h => key a b h)
  | Int.negSucc a, Int.ofNat b =>
    exact absurd h.symm (fun h => key b a h)
  | Int.negSucc a, Int.negSucc b =>
    have hd : "-".data ++ (natDecimal (a + 1)).data
        = "-".data ++ (natDecimal (b + 1)).data := by
      have h0 := congrArg String.data h
      simp only [intDecimal] at h0
      rw [string_data_append, string_data_append] at h0
      exact h0
    have : (natDecimal (a + 1)).data = (natDecimal (b + 1)).data :=
      List.append_cancel_left hd
    have := natDecimal_injective (string_data_inj _ _ this)
    exact congrArg Int.negSucc (Nat.succ_injective this)

/-- C9: the key generator is the pure function returning exactly the
base label, a hyphen, and the decimal rendering of the counter; for a
fixed base, distinct counters always yield distinct keys. -/
theorem generateUniqueEventKey_spec (base : String) (i j : Int) :
    generateUniqueEventKey base i = base ++ "-" ++ intDecimal i ∧
    (i ≠ j → generateUniqueEventKey base i ≠ generateUniqueEventKey base j) := by
  refine ⟨rfl, ?_⟩
  intro hne heq
  apply hne
  apply intDecimal_injective
  have hd : (base.data ++ "-".data) ++ (intDecimal i).data
      = (base.data ++ "-".data) ++ (intDecimal j).data := by
    have h0 := congrArg String.data heq
    simp only [generateUniqueEventKey] at h0
    rw [string_data_append, string_data_append, string_data_append, string_data_append] at h0
    exact h0
  have h2 : (intDecimal i).data = (intDecimal j).data :=
    List.append_cancel_left hd
  exact string_data_inj _ _ h2

/-- Concrete instance of `generateUniqueEventKey_spec`: with base
"hello" the counters 0 and 1 give distinct keys. -/
theorem generateUniqueEventKey_spec_witness :
    generateUniqueEventKey "hello" 0 = "hello" ++ "-" ++ intDecimal 0 ∧
    (0 : Int) ≠ 1 ∧
    generateUniqueEventKey "hello" 0 ≠ generateUniqueEventKey "hello" 1 :=
  ⟨(generateUniqueEventKey_spec "hello" 0 1).1, by decide,
    (generateUniqueEventKey_spec "hello" 0 1).2 (by decide)⟩

end KeyModel
